import Mathlib

/-!
Verification of the `chapter_12_io_cli` line-search CLI.

Strings are modelled as lists of characters (`Str`).  The library crate
(`lib.rs`) and the binary crate (`main.rs`) are embedded separately, in the
namespaces `Lib` and `Bin`, because each defines its own `Config` and `run`.
File-system reads are modelled by an explicit function argument
`fsRead : Str → Except ε Str` standing for `fs::read_to_string`; printed
output is modelled as the list of emitted lines.
-/

/-- Strings are modelled as lists of characters. -/
abbrev Str := List Char

/-- Models Rust `str::contains`: `containsStr haystack needle` is `true` iff
`needle` occurs as a contiguous substring of `haystack`. -/
def containsStr (haystack needle : Str) : Bool :=
  match haystack with
  | [] => needle.isEmpty
  | _ :: t => needle.isPrefixOf haystack || containsStr t needle

/-- Models Rust `str::to_lowercase` (per-character case mapping). -/
def toLowercase (s : Str) : Str := s.map Char.toLower

/-- Splits at every newline character, returning the piece before the first
newline together with the remaining pieces. -/
def splitOnNlAux : Str → Str × List Str
  | [] => ([], [])
  | c :: cs =>
    let r := splitOnNlAux cs
    if c = '\n' then ([], r.1 :: r.2) else (c :: r.1, r.2)

/-- All pieces of a string split at every newline character; never empty. -/
def splitOnNl (s : Str) : List Str := (splitOnNlAux s).1 :: (splitOnNlAux s).2

/-- Removes one trailing carriage return, as Rust `str::lines` does to a
newline-terminated line. -/
def stripTrailingCR (l : Str) : Str :=
  if l.getLast? = some '\r' then l.dropLast else l

/-- Post-processing of the pieces of `splitOnNl`, following Rust
`str::lines`: every newline-terminated piece (all but the last) loses one
trailing carriage return, and a trailing empty piece (from a final newline,
or an empty input) yields no line. -/
def finishLines : List Str → List Str
  | [] => []
  | [p] => if p = [] then [] else [p]
  | p :: ps => stripTrailingCR p :: finishLines ps

/-- Models Rust `str::lines` on the corpus. -/
def linesRust (s : Str) : List Str := finishLines (splitOnNl s)

namespace Lib

/-- Models `Config` from lib.rs. -/
structure Config where
  query : Str
  filename : Str
  case_sensitive : Bool
deriving DecidableEq

/-- Models `Config::new` from lib.rs.  The argument `envCaseInsensitive`
models `env::var("CASE_INSENSITIVE")`: `none` when the variable is absent,
`some v` when it is present with value `v`; `is_err()` is `isNone`. -/
def Config.new (args : List Str) (envCaseInsensitive : Option Str) :
    Except Str Config :=
  if h : args.length < 3 then Except.error "not enough arguments".data
  else
    Except.ok
      { query := args.get ⟨1, by omega⟩
        filename := args.get ⟨2, by omega⟩
        case_sensitive := envCaseInsensitive.isNone }

/-- Models `search` from lib.rs: keep, in order, the lines containing the
query. -/
def search (query contents : Str) : List Str :=
  (linesRust contents).filter (fun line => containsStr line query)

/-- Models `search_case_insensitive` from lib.rs: lowercase the query once,
then keep the lines whose lowercased copy contains it. -/
def search_case_insensitive (query contents : Str) : List Str :=
  let query := toLowercase query
  (linesRust contents).filter (fun line => containsStr (toLowercase line) query)

/-- Models `run` from lib.rs.  The second component of the result is the
list of lines printed to standard output. -/
def run {ε : Type} (fsRead : Str → Except ε Str) (config : Config) :
    Except ε Unit × List Str :=
  match fsRead config.filename with
  | Except.error e => (Except.error e, [])
  | Except.ok contents =>
    let results :=
      if config.case_sensitive then search config.query contents
      else search_case_insensitive config.query contents
    (Except.ok (), results)

end Lib

namespace Bin

/-- Models `Config` from main.rs (no case-sensitivity field). -/
structure Config where
  query : Str
  filename : Str
deriving DecidableEq

/-- Models `Config::new` from main.rs. -/
def Config.new (args : List Str) : Except Str Config :=
  if h : args.length < 3 then Except.error "not enough arguments".data
  else
    Except.ok
      { query := args.get ⟨1, by omega⟩
        filename := args.get ⟨2, by omega⟩ }

/-- The observable outcome of one process run: the lines printed to the
standard output stream, the lines printed to the error stream, and the
exit status. -/
structure ProcOutput where
  stdout : List Str
  stderr : List Str
  exitCode : Nat
deriving DecidableEq

/-- Models `run` from main.rs: read the file and print its contents. -/
def run {ε : Type} (fsRead : Str → Except ε Str) (config : Config) :
    Except ε Unit × List Str :=
  match fsRead config.filename with
  | Except.error e => (Except.error e, [])
  | Except.ok contents => (Except.ok (), ["With text:\n".data ++ contents])

/-- Models `main` from main.rs.  On a configuration error the message is
printed with `println!` (standard output) and the process exits with
status 1; otherwise the preamble is printed, `run` is called and its
result is discarded, and the process exits with status 0. -/
def main {ε : Type} (fsRead : Str → Except ε Str) (args : List Str) :
    ProcOutput :=
  match Config.new args with
  | Except.error err =>
    { stdout := ["Problem parsing arguments: ".data ++ err]
      stderr := []
      exitCode := 1 }
  | Except.ok config =>
    { stdout :=
        ["Searching for ".data ++ config.query,
         "In file ".data ++ config.filename] ++ (run fsRead config).2
      stderr := []
      exitCode := 0 }

end Bin

/-! ### Helper lemmas -/

theorem containsStr_iff (h n : Str) : containsStr h n = true ↔ n <:+: h := by
  induction h with
  | nil => simp [containsStr, List.isEmpty_iff]
  | cons c t ih => simp [containsStr, ih, List.infix_cons_iff]

theorem containsStr_eq_decide (h n : Str) :
    containsStr h n = decide (n <:+: h) := by
  by_cases hx : n <:+: h
  · rw [(containsStr_iff h n).mpr hx, decide_eq_true hx]
  · rw [decide_eq_false hx]
    cases hb : containsStr h n with
    | false => rfl
    | true => exact absurd ((containsStr_iff h n).mp hb) hx

theorem containsStr_nil_query (h : Str) : containsStr h [] = true := by
  cases h <;> rfl

theorem splitOnNlAux_no_newline (s : Str) :
    '\n' ∉ (splitOnNlAux s).1 ∧ ∀ p ∈ (splitOnNlAux s).2, '\n' ∉ p := by
  induction s with
  | nil => simp [splitOnNlAux]
  | cons c cs ih =>
    by_cases hc : c = '\n'
    · simp only [splitOnNlAux, hc, if_pos rfl]
      refine ⟨by simp, ?_⟩
      intro p hp
      rcases List.mem_cons.mp hp with h1 | h2
      · exact h1 ▸ ih.1
      · exact ih.2 p h2
    · simp only [splitOnNlAux, if_neg hc]
      refine ⟨?_, ih.2⟩
      intro hmem
      rcases List.mem_cons.mp hmem with h1 | h2
      · exact hc h1.symm
      · exact ih.1 h2

theorem splitOnNl_no_newline (s : Str) : ∀ p ∈ splitOnNl s, '\n' ∉ p := by
  intro p hp
  rcases List.mem_cons.mp hp with h1 | h2
  · exact h1 ▸ (splitOnNlAux_no_newline s).1
  · exact (splitOnNlAux_no_newline s).2 p h2

theorem stripTrailingCR_no_newline (l : Str) (h : '\n' ∉ l) :
    '\n' ∉ stripTrailingCR l := by
  unfold stripTrailingCR
  split
  · intro hmem; exact h (List.dropLast_subset l hmem)
  · exact h

theorem finishLines_no_newline (pieces : List Str)
    (hall : ∀ p ∈ pieces, '\n' ∉ p) : ∀ l ∈ finishLines pieces, '\n' ∉ l := by
  induction pieces with
  | nil => simp [finishLines]
  | cons p ps ih =>
    cases ps with
    | nil =>
      intro l hl
      by_cases hp : p = []
      · simp [finishLines, hp] at hl
      · simp only [finishLines, if_neg hp, List.mem_singleton] at hl
        exact hl ▸ hall p (List.mem_singleton_self p)
    | cons q qs =>
      intro l hl
      simp only [finishLines] at hl
      rcases List.mem_cons.mp hl with h1 | h2
      · exact h1 ▸ stripTrailingCR_no_newline p (hall p (List.mem_cons_self p _))
      · exact ih (fun r hr => hall r (List.mem_cons_of_mem p hr)) l h2

theorem linesRust_no_newline (s : Str) : ∀ l ∈ linesRust s, '\n' ∉ l :=
  finishLines_no_newline (splitOnNl s) (splitOnNl_no_newline s)

/-! ### Claim theorems -/

/-- C1: for every query `q` and corpus `c`, case-sensitive `search` returns
exactly those lines of `c` that contain `q` as a literal substring, in the
original line order, with no deduplication and no limit. -/
theorem search_spec (q c : Str) :
    Lib.search q c = (linesRust c).filter (fun l => decide (q <:+: l)) :=
  List.filter_congr (fun l _ => containsStr_eq_decide l q)

/-- C2: case-insensitive search returns exactly those lines whose lowercase
form contains the lowercase form of the query, in original order, and every
returned line is an original (non-lowercased) line of the corpus. -/
theorem search_case_insensitive_spec (q c : Str) :
    Lib.search_case_insensitive q c =
      (linesRust c).filter
        (fun l => decide (toLowercase q <:+: toLowercase l)) ∧
    ∀ l ∈ Lib.search_case_insensitive q c, l ∈ linesRust c := by
  constructor
  · exact List.filter_congr
      (fun l _ => containsStr_eq_decide (toLowercase l) (toLowercase q))
  · intro l hl
    simp only [Lib.search_case_insensitive] at hl
    exact List.mem_of_mem_filter hl

theorem search_case_insensitive_spec_witness :
    "aB".data ∈ linesRust "aB".data :=
  (search_case_insensitive_spec "B".data "aB".data).2 "aB".data (by decide)

/-- C7: the empty query matches every line of the corpus, in both the
case-sensitive and the case-insensitive mode. -/
theorem empty_query_returns_all (c : Str) :
    Lib.search [] c = linesRust c ∧
    Lib.search_case_insensitive [] c = linesRust c := by
  constructor
  · exact List.filter_eq_self.mpr (fun l _ => containsStr_nil_query l)
  · exact List.filter_eq_self.mpr
      (fun l _ => containsStr_nil_query (toLowercase l))

/-- C9: in both modes the result is a subsequence of the corpus's line
sequence (each corpus line contributes at most one entry, however many
times the query occurs inside it), and a matching line occurs in the result
exactly as often as it occurs among the corpus lines. -/
theorem search_results_sublist (q c : Str) :
    List.Sublist (Lib.search q c) (linesRust c) ∧
    List.Sublist (Lib.search_case_insensitive q c) (linesRust c) ∧
    (∀ l : Str, containsStr l q = true →
      (Lib.search q c).count l = (linesRust c).count l) ∧
    (∀ l : Str, containsStr (toLowercase l) (toLowercase q) = true →
      (Lib.search_case_insensitive q c).count l = (linesRust c).count l) := by
  refine ⟨ List.filter_sublist _, List.filter_sublist _, ?_, ?_⟩
  · intro l hl
    exact List.count_filter hl
  · intro l hl
    exact List.count_filter hl

theorem search_results_sublist_witness :
    (Lib.search "a".data "a".data).count "a".data =
      (linesRust "a".data).count "a".data :=
  (search_results_sublist "a".data "a".data).2.2.1 "a".data (by decide)

/-- C4: the run orchestrator either succeeds, emitting exactly the matches
of the selected search mode (one per line, in order), or, when the corpus
read fails, returns the very read error unmodified while emitting
nothing. -/
theorem run_spec (ε : Type) (fsRead : Str → Except ε Str)
    (config : Lib.Config) :
    (∃ contents, fsRead config.filename = Except.ok contents ∧
      Lib.run fsRead config = (Except.ok (),
        if config.case_sensitive then Lib.search config.query contents
        else Lib.search_case_insensitive config.query contents)) ∨
    (∃ e, fsRead config.filename = Except.error e ∧
      Lib.run fsRead config = (Except.error e, ([] : List Str))) := by
  cases hf : fsRead config.filename with
  | error e => exact Or.inr ⟨e, rfl, by simp [Lib.run, hf]⟩
  | ok contents => exact Or.inl ⟨contents, rfl, by simp [Lib.run, hf]⟩

/-- C6: a successfully constructed configuration is case-sensitive exactly
when the `CASE_INSENSITIVE` environment toggle is absent, whatever value the
toggle may have when present. -/
theorem config_case_sensitive_iff_env_absent (args : List Str)
    (env : Option Str) (c : Lib.Config)
    (h : Lib.Config.new args env = Except.ok c) :
    c.case_sensitive = env.isNone := by
  unfold Lib.Config.new at h
  split at h
  · simp at h
  · cases h
    rfl

theorem config_case_sensitive_iff_env_absent_witness :
    ({ query := "q".data, filename := "f".data,
       case_sensitive := false } : Lib.Config).case_sensitive =
      (some "x".data : Option Str).isNone :=
  config_case_sensitive_iff_env_absent
    ["p".data, "q".data, "f".data] (some "x".data)
    { query := "q".data, filename := "f".data, case_sensitive := false } rfl

/-- C8 counterexample: the configuration builder accepts empty positional
arguments, so a successfully constructed configuration can carry an empty
query and an empty source identifier. -/
theorem config_new_empty_query_counterexample :
    Lib.Config.new ["prog".data, [], []] none =
      Except.ok { query := [], filename := [], case_sensitive := true } := rfl

/-- C8 amended: a successful construction guarantees only that at least two
positional arguments followed the program name and that the query and the
source identifier are copied from positions 1 and 2; they may be empty. -/
theorem config_new_ok_shape (args : List Str) (env : Option Str)
    (c : Lib.Config) (h : Lib.Config.new args env = Except.ok c) :
    3 ≤ args.length ∧
    (∃ h1 : 1 < args.length, c.query = args.get ⟨1, h1⟩) ∧
    (∃ h2 : 2 < args.length, c.filename = args.get ⟨2, h2⟩) := by
  unfold Lib.Config.new at h
  split at h
  · simp at h
  · rename_i hlen
    cases h
    exact ⟨by omega, ⟨by omega, rfl⟩, ⟨by omega, rfl⟩⟩

theorem config_new_ok_shape_witness :
    3 ≤ (["p".data, "q".data, "f".data] : List Str).length :=
  (config_new_ok_shape ["p".data, "q".data, "f".data] none
    { query := "q".data, filename := "f".data, case_sensitive := true }
    rfl).1

/-- C10 counterexample: a corpus using a `\r\r\n` ending, or a final
unterminated line ending in `\r`, makes both search functions return a line
that still ends with a carriage return. -/
theorem search_trailing_cr_counterexample :
    Lib.search "a".data "a\r\r\nx".data = [['a', '\r']] ∧
    Lib.search "a".data "a\r".data = [['a', '\r']] ∧
    (['a', '\r'] : Str).getLast? = some '\r' := by
  refine ⟨rfl, rfl, rfl⟩

/-- C10 amended: lines are obtained by splitting the corpus on the newline
character, a newline-terminated line losing one trailing carriage return;
hence no string returned by either search function contains a newline (a
returned line may still end with a carriage return, e.g. from a `\r\r\n`
ending or from an unterminated final line ending in `\r`), and the
substring test is applied to the line without its terminator. -/
theorem search_no_newline (q c : Str) :
    (∀ l ∈ Lib.search q c, '\n' ∉ l) ∧
    (∀ l ∈ Lib.search_case_insensitive q c, '\n' ∉ l) := by
  constructor
  · intro l hl
    exact linesRust_no_newline c l (List.mem_of_mem_filter hl)
  · intro l hl
    simp only [Lib.search_case_insensitive] at hl
    exact linesRust_no_newline c l (List.mem_of_mem_filter hl)

theorem search_no_newline_witness : '\n' ∉ (['a'] : Str) :=
  (search_no_newline ['a'] ('a' :: '\n' :: 'b' :: [])).1 ['a'] (by decide)

/-- C3 counterexample: with an unreadable source, the process prints
nothing to the error stream and exits with status 0, because `main`
discards the result of `run`. -/
theorem main_read_failure_counterexample :
    (Bin.main (fun _ => (Except.error () : Except Unit Str))
      ["prog".data, "q".data, "missing.txt".data]).stderr = [] ∧
    (Bin.main (fun _ => (Except.error () : Except Unit Str))
      ["prog".data, "q".data, "missing.txt".data]).exitCode = 0 :=
  ⟨rfl, rfl⟩

/-- C3 amended: when the source cannot be read, `run` returns the error but
`main` discards it: the process prints only the two preamble lines to
standard output, prints nothing at all to the error stream (no
application-error message), prints no matches, and exits with status 0. -/
theorem main_discards_run_error (ε : Type) (fsRead : Str → Except ε Str)
    (args : List Str) (config : Bin.Config) (e : ε)
    (hc : Bin.Config.new args = Except.ok config)
    (hr : fsRead config.filename = Except.error e) :
    Bin.main fsRead args =
      { stdout := ["Searching for ".data ++ config.query,
                   "In file ".data ++ config.filename]
        stderr := []
        exitCode := 0 } := by
  simp [Bin.main, Bin.run, hc, hr]

theorem main_discards_run_error_witness :
    Bin.main (fun _ => (Except.error () : Except Unit Str))
      ["prog".data, "q".data, "missing.txt".data] =
      { stdout := ["Searching for ".data ++ "q".data,
                   "In file ".data ++ "missing.txt".data]
        stderr := []
        exitCode := 0 } :=
  main_discards_run_error Unit (fun _ => Except.error ())
    ["prog".data, "q".data, "missing.txt".data]
    { query := "q".data, filename := "missing.txt".data } () rfl rfl

/-- C5 counterexample: with no positional arguments the "not enough
arguments" report goes to the standard output stream, and the error stream
stays empty, contrary to the claim. -/
theorem main_missing_args_counterexample :
    (Bin.main (fun _ => (Except.error () : Except Unit Str))
      ["prog".data]).stdout =
      ["Problem parsing arguments: not enough arguments".data] ∧
    (Bin.main (fun _ => (Except.error () : Except Unit Str))
      ["prog".data]).stderr = [] :=
  ⟨rfl, rfl⟩

/-- C5 amended: with fewer than two positional arguments after the program
name, configuration construction fails with the "not enough arguments"
error; the process prints the user-facing message to the standard output
stream (not the error stream), prints nothing to the error stream, and
exits with status 1. -/
theorem main_missing_args (ε : Type) (fsRead : Str → Except ε Str)
    (args : List Str) (h : args.length < 3) :
    Bin.main fsRead args =
      { stdout :=
          ["Problem parsing arguments: ".data ++ "not enough arguments".data]
        stderr := []
        exitCode := 1 } := by
  simp [Bin.main, Bin.Config.new, h]

theorem main_missing_args_witness :
    Bin.main (fun _ => (Except.error () : Except Unit Str)) ["prog".data] =
      { stdout :=
          ["Problem parsing arguments: ".data ++ "not enough arguments".data]
        stderr := []
        exitCode := 1 } :=
  main_missing_args Unit (fun _ => Except.error ()) ["prog".data] (by decide)
